import Mathlib

/-!
Shallow embedding of the directional / spatial Stroop game (`src/p.py`).

The program is a single pygame script.  Its logic consists of:
* `make_trials` (p.py lines 121-134): builds a shuffled list of
  congruent/incongruent trials;
* `calc_avg_rt` (lines 247-253): mean reaction time over correct results;
* a frame loop (lines 256-435) that, for each frame, iterates over the
  pending pygame events and runs a state dispatch
  (start / fixation / stimulus / feedback / finished) for each event.
  All time-based checks (fixation elapse, stimulus timeout, feedback
  elapse) sit inside the per-event dispatch, so they are evaluated once
  per processed event, with the single timestamp `t` sampled at the top
  of the frame.

Timestamps and durations are modelled as rationals; randomness
(`random.choice`, `random.shuffle`, `random.randint`) is modelled by
explicit oracle inputs.  Python list indexing `trials[trial_index]`
(which raises on an out-of-bounds index) is modelled by `readTrial`,
an `Option`-returning read, defaulted where the code would crash;
the safety theorems show the default is never used in reachable states.
-/

namespace Stroop

/-- The two directions; `"LEFT"` / `"RIGHT"` in the source. -/
inductive Direction : Type
  | left
  | right
deriving DecidableEq

/-- `"LEFT" if word == "RIGHT" else "RIGHT"` (p.py line 131). -/
def Direction.opposite : Direction → Direction
  | .left => .right
  | .right => .left

/-- A trial `(word, arrow)` as produced by `make_trials` (p.py line 128). -/
structure Trial where
  word : Direction
  arrow : Direction
deriving DecidableEq

/-- One entry of the `results` list (p.py lines 314-321 and 331-338). -/
structure TrialResult where
  trial : Nat
  word : Direction
  arrow : Direction
  response : Option Direction
  correct : Bool
  rt : Option ℚ
deriving DecidableEq

/-- Python 3 `round` (round-half-to-even) on an exact rational. -/
def pyRound (q : ℚ) : ℤ :=
  if q - ⌊q⌋ < 1/2 then ⌊q⌋
  else if 1/2 < q - ⌊q⌋ then ⌊q⌋ + 1
  else if ⌊q⌋ % 2 = 0 then ⌊q⌋ else ⌊q⌋ + 1

/-- `n_congruent = int(round(n * congruency_prop))` (p.py line 123). -/
def nCongruent (n : ℕ) (f : ℚ) : ℕ := (pyRound ((n : ℚ) * f)).toNat

/-- The congruent block built by the first loop of `make_trials`
(p.py lines 125-128): each slot draws a word from the entropy source
`wc` and sets `arrow = word`. -/
def congruentBlock (wc : ℕ → Direction) (k : ℕ) : List Trial :=
  (List.range k).map (fun i => ⟨wc i, wc i⟩)

/-- The incongruent block built by the second loop of `make_trials`
(p.py lines 129-132): each slot draws a word and sets the arrow to the
opposite direction. -/
def incongruentBlock (wc : ℕ → Direction) (k : ℕ) : List Trial :=
  (List.range k).map (fun i => ⟨wc i, (wc i).opposite⟩)

/-- `ts` is a possible return value of `make_trials n f` (p.py lines
121-134): some permutation (the `random.shuffle`) of a congruent block
of size `round(n*f)` followed by an incongruent block of size
`n - round(n*f)`, for some word draws. -/
def IsMakeTrialsOutput (n : ℕ) (f : ℚ) (ts : List Trial) : Prop :=
  ∃ wc₁ wc₂ : ℕ → Direction,
    ts.Perm (congruentBlock wc₁ (nCongruent n f) ++
             incongruentBlock wc₂ (n - nCongruent n f))

/-- `calc_avg_rt` (p.py lines 247-253).  The Python list comprehension
keeps `r['rt']` for every result with `r['correct']` truthy; in every
result the machine produces, a correct result carries a real reaction
time, so the `Option.getD 0` default mirrors the only defined cases. -/
def calc_avg_rt (results : List TrialResult) : ℚ :=
  if results = [] then 0
  else if (results.filter (fun r => r.correct)).map (fun r => r.rt.getD 0) = [] then 0
  else ((results.filter (fun r => r.correct)).map (fun r => r.rt.getD 0)).sum /
    (((results.filter (fun r => r.correct)).map (fun r => r.rt.getD 0)).length : ℚ)

/-- The finished-screen display check `avg > 0` (p.py line 427): the
numeric average is shown exactly when it is strictly positive,
otherwise the screen shows the no-data text. -/
def finishedShowsAvg (results : List TrialResult) : Bool :=
  decide (0 < calc_avg_rt results)

/-- Keys the dispatch distinguishes: SPACE, LEFT, RIGHT, R, Q and
anything else. -/
inductive Key : Type
  | space
  | left
  | right
  | r
  | q
  | other
deriving DecidableEq

/-- A pygame event: window close (`QUIT`), `KEYDOWN`, `MOUSEBUTTONDOWN`
with button number and position, or any other event type (mouse motion
etc.). -/
inductive Event : Type
  | quit
  | keydown (k : Key)
  | mousedown (button : Nat) (x : Int) (y : Int)
  | motion
deriving DecidableEq

/-- `left_button.clicked(mpos)`: `Rect(130, 530, 180, 80)` collision
(p.py line 145; pygame excludes the right and bottom edges). -/
def leftButtonHit (x y : Int) : Bool :=
  decide (130 ≤ x) && decide (x < 310) && decide (530 ≤ y) && decide (y < 610)

/-- `right_button.clicked(mpos)`: `Rect(690, 530, 180, 80)`
(p.py line 146). -/
def rightButtonHit (x y : Int) : Bool :=
  decide (690 ≤ x) && decide (x < 870) && decide (530 ≤ y) && decide (y < 610)

/-- The response extracted from one event by the stimulus branch
(p.py lines 296-307): LEFT/RIGHT arrow keys, or a button-1 click inside
the LEFT button, else inside the RIGHT button. -/
def responseOf : Event → Option Direction
  | .keydown .left => some Direction.left
  | .keydown .right => some Direction.right
  | .mousedown b x y =>
      if b = 1 then
        if leftButtonHit x y then some Direction.left
        else if rightButtonHit x y then some Direction.right
        else none
      else none
  | _ => none

/-- An event that starts the session from the start screen
(p.py lines 265 and 273): SPACE or any button-1 click. -/
def isStartTrigger : Event → Bool
  | .keydown .space => true
  | .mousedown b _ _ => decide (b = 1)
  | _ => false

/-- The phases of `state` (p.py line 153). -/
inductive Phase : Type
  | start
  | fixation
  | stimulus
  | feedback
  | finished
deriving DecidableEq

/-- The configuration constants of p.py lines 24-29 (`TRIALS`,
`STIMULUS_DURATION`, `FEEDBACK_DURATION`, `FIXATION_DURATION`,
`CONGRUENCY_PROPORTION`), kept abstract so claims about other values
can be stated. -/
structure Config where
  totalTrials : Nat
  stimulusDuration : ℚ
  feedbackDuration : ℚ
  fixationDuration : ℚ
  congruencyProportion : ℚ
deriving DecidableEq

/-- The constants shipped in the source: 40 trials, 1.2 s stimulus,
0.6 s feedback, 0.5 s fixation, congruency 0.5. -/
def defaultConfig : Config :=
  { totalTrials := 40
    stimulusDuration := 6/5
    feedbackDuration := 3/5
    fixationDuration := 1/2
    congruencyProportion := 1/2 }

/-- The mutable module state of the loop (p.py lines 149-155, 220 plus
`current_word` / `current_arrow` set on line 290 and the `running`
flag). -/
structure GameState where
  trials : List Trial
  trialIndex : Nat
  score : Nat
  results : List TrialResult
  phase : Phase
  stateTime : ℚ
  stimOnset : Option ℚ
  currentWord : Direction
  currentArrow : Direction
  randomVariant : Nat
  running : Bool
deriving DecidableEq

/-- The random draws an event-dispatch step may consume: a fresh
`make_trials` output (start branch) and a `random.randint(0, 1)`
value. -/
structure Rand where
  newTrials : List Trial
  variant : Nat

/-- The module state right after p.py lines 149-155: a generated trial
list, index/score zero, empty results, start phase.  `current_word` /
`current_arrow` are unbound in Python until first assigned; they are
given an arbitrary value here and never read before being set. -/
def initState (ts : List Trial) : GameState :=
  { trials := ts
    trialIndex := 0
    score := 0
    results := []
    phase := Phase.start
    stateTime := 0
    stimOnset := none
    currentWord := Direction.left
    currentArrow := Direction.left
    randomVariant := 0
    running := true }

/-- `trials[trial_index]` (p.py lines 290 and 373) as a fallible read. -/
def readTrial (s : GameState) : Option Trial := s.trials[s.trialIndex]?

/-- `if event.type == pygame.QUIT: running = False` (p.py lines
261-262), applied before the state dispatch. -/
def applyQuit (e : Event) (s : GameState) : GameState :=
  if e = Event.quit then { s with running := false } else s

/-- The per-event state dispatch (p.py lines 264-359), for one event at
frame timestamp `t` with entropy `rnd`. -/
def stepPhase (cfg : Config) (t : ℚ) (e : Event) (rnd : Rand) (s : GameState) :
    GameState :=
  match s.phase with
  | Phase.start =>
      if isStartTrigger e then
        { s with trialIndex := 0
                 score := 0
                 results := []
                 trials := rnd.newTrials
                 phase := Phase.fixation
                 stateTime := t
                 randomVariant := rnd.variant }
      else s
  | Phase.fixation =>
      if cfg.fixationDuration ≤ t - s.stateTime then
        { s with phase := Phase.stimulus
                 stateTime := t
                 stimOnset := some t
                 currentWord := ((readTrial s).getD ⟨Direction.left, Direction.left⟩).word
                 currentArrow := ((readTrial s).getD ⟨Direction.left, Direction.left⟩).arrow
                 randomVariant := rnd.variant }
      else s
  | Phase.stimulus =>
      match responseOf e with
      | some resp =>
          let rt := t - s.stimOnset.getD 0
          let correct : Bool := decide (resp = s.currentWord)
          { s with score := if correct then s.score + 1 else s.score
                   results := s.results ++
                     [{ trial := s.trialIndex + 1
                        word := s.currentWord
                        arrow := s.currentArrow
                        response := some resp
                        correct := correct
                        rt := some rt }]
                   phase := Phase.feedback
                   stateTime := t }
      | none =>
          if cfg.stimulusDuration ≤ t - s.stimOnset.getD 0 then
            { s with results := s.results ++
                       [{ trial := s.trialIndex + 1
                          word := s.currentWord
                          arrow := s.currentArrow
                          response := none
                          correct := false
                          rt := none }]
                     phase := Phase.feedback
                     stateTime := t }
          else s
  | Phase.feedback =>
      if cfg.feedbackDuration ≤ t - s.stateTime then
        if cfg.totalTrials ≤ s.trialIndex + 1 then
          { s with trialIndex := s.trialIndex + 1
                   phase := Phase.finished
                   stateTime := t }
        else
          { s with trialIndex := s.trialIndex + 1
                   phase := Phase.fixation
                   stateTime := t }
      else s
  | Phase.finished =>
      match e with
      | Event.keydown Key.r => { s with phase := Phase.start }
      | Event.keydown Key.q => { s with running := false }
      | _ => s

/-- Handling of one event of the frame's queue: the QUIT check followed
by the state dispatch (p.py lines 260-359). -/
def stepEvent (cfg : Config) (t : ℚ) (e : Event) (rnd : Rand) (s : GameState) :
    GameState :=
  stepPhase cfg t e rnd (applyQuit e s)

/-- One frame of the main loop (p.py lines 257-359): the timestamp `t`
is sampled once, then every pending event is dispatched in arrival
order.  The drawing section (lines 361-433) does not mutate the model
state. -/
def frame (cfg : Config) (t : ℚ) (es : List (Event × Rand)) (s : GameState) :
    GameState :=
  es.foldl (fun s p => stepEvent cfg t p.1 p.2 s) s

/-- Validity of an entropy draw: the fresh trial list is a possible
`make_trials(TRIALS, CONGRUENCY_PROPORTION)` output and the variant is
a `randint(0, 1)` value. -/
def RandOK (cfg : Config) (rnd : Rand) : Prop :=
  IsMakeTrialsOutput cfg.totalTrials cfg.congruencyProportion rnd.newTrials ∧
  rnd.variant ≤ 1

/-- Reachable states of the loop: the initial module state (with its
`make_trials` call on p.py line 149), closed under frames executed while
`running` holds, with well-formed entropy. -/
inductive Reachable (cfg : Config) : GameState → Prop
  | init (ts : List Trial)
      (hts : IsMakeTrialsOutput cfg.totalTrials cfg.congruencyProportion ts) :
      Reachable cfg (initState ts)
  | step (s : GameState) (t : ℚ) (es : List (Event × Rand))
      (hs : Reachable cfg s) (hrun : s.running = true)
      (hr : ∀ p ∈ es, RandOK cfg p.2) :
      Reachable cfg (frame cfg t es s)

/-! ### Concrete executions of the loop, used as witnesses below -/

/-- A concrete valid `make_trials 40 0.5` output: 20 congruent then 20
incongruent trials (identity shuffle, all words LEFT). -/
def demoTrials : List Trial :=
  List.replicate 20 ⟨Direction.left, Direction.left⟩ ++
  List.replicate 20 ⟨Direction.left, Direction.right⟩

/-- A fixed entropy draw for the demo run. -/
def demoRand : Rand := ⟨demoTrials, 0⟩

/-- After one frame at `t = 0` whose only event is the SPACE press:
the session has started, phase Fixation. -/
def demoFix : GameState :=
  frame defaultConfig 0 [(Event.keydown Key.space, demoRand)] (initState demoTrials)

/-- One frame later (`t = 1`, a single mouse-motion event): the
fixation duration 0.5 has elapsed, phase Stimulus with onset 1. -/
def demoStim : GameState :=
  frame defaultConfig 1 [(Event.motion, demoRand)] demoFix

/-- At `t = 3` a motion event is processed: 2 seconds have passed since
stimulus onset, beyond the 1.2 s deadline, so the timeout branch
records a miss, phase Feedback. -/
def demoFb : GameState :=
  frame defaultConfig 3 [(Event.motion, demoRand)] demoStim

/-- Alternative continuation from `demoStim`: a LEFT keypress in the
same frame timestamp as the stimulus onset, giving reaction time 0. -/
def demoZeroRT : GameState :=
  frame defaultConfig 1 [(Event.keydown Key.left, demoRand)] demoStim

/-- The results log of `demoZeroRT`: one correct response with a
zero-second reaction time. -/
def demoRs : List TrialResult :=
  [{ trial := 1, word := Direction.left, arrow := Direction.left,
     response := some Direction.left, correct := true, rt := some 0 }]

/-- A concrete valid `make_trials 4 0.5` output. -/
def demoSmallTrials : List Trial :=
  [⟨Direction.left, Direction.left⟩, ⟨Direction.left, Direction.left⟩,
   ⟨Direction.left, Direction.right⟩, ⟨Direction.left, Direction.right⟩]

/-- The shipped configuration with the trial count replaced by the
malformed value 0. -/
def zeroConfig : Config := { defaultConfig with totalTrials := 0 }

/-- Under `zeroConfig`, the state after the start screen receives
SPACE: the session starts anyway. -/
def zeroFix : GameState :=
  frame zeroConfig 0 [(Event.keydown Key.space, ⟨[], 0⟩)] (initState [])

/-- Bookkeeping invariant: outside Feedback the results log has exactly
`trial_index` entries; inside Feedback it has one more (the trial just
recorded, whose index is incremented only on leaving Feedback); and the
1-based trial numbers stored in the log are exactly `1, 2, ...` in
order. -/
def InvA (s : GameState) : Prop :=
  (s.phase = Phase.feedback → s.results.length = s.trialIndex + 1)
  ∧ (s.phase ≠ Phase.feedback → s.results.length = s.trialIndex)
  ∧ s.results.map (fun r => r.trial) = List.range' 1 s.results.length

/-- Index-bound invariant (for a positive configured trial count): the
trial list is at least `totalTrials` long, the trial index is strictly
within bounds whenever a phase that reads or records the current trial
is active, and the index never exceeds `totalTrials`. -/
def InvB (cfg : Config) (s : GameState) : Prop :=
  cfg.totalTrials ≤ s.trials.length
  ∧ ((s.phase = Phase.fixation ∨ s.phase = Phase.stimulus ∨
      s.phase = Phase.feedback) → s.trialIndex < cfg.totalTrials)
  ∧ s.trialIndex ≤ cfg.totalTrials

/-! ### Trial-generation lemmas -/

theorem Direction.opposite_ne (d : Direction) : d.opposite ≠ d := by
  cases d <;> simp [Direction.opposite]

theorem length_congruentBlock (wc : ℕ → Direction) (k : ℕ) :
    (congruentBlock wc k).length = k := by
  simp [congruentBlock]

theorem length_incongruentBlock (wc : ℕ → Direction) (k : ℕ) :
    (incongruentBlock wc k).length = k := by
  simp [incongruentBlock]

theorem arrow_eq_word_of_mem_congruentBlock {wc : ℕ → Direction} {k : ℕ}
    {tr : Trial} (h : tr ∈ congruentBlock wc k) : tr.arrow = tr.word := by
  simp only [congruentBlock, List.mem_map, List.mem_range] at h
  obtain ⟨i, _, rfl⟩ := h
  rfl

theorem arrow_ne_word_of_mem_incongruentBlock {wc : ℕ → Direction} {k : ℕ}
    {tr : Trial} (h : tr ∈ incongruentBlock wc k) : tr.arrow ≠ tr.word := by
  simp only [incongruentBlock, List.mem_map, List.mem_range] at h
  obtain ⟨i, _, rfl⟩ := h
  exact Direction.opposite_ne (wc i)

theorem pyRound_le {q : ℚ} {m : ℤ} (h : q ≤ (m : ℚ)) : pyRound q ≤ m := by
  have hfl : ⌊q⌋ ≤ m := by
    have := Int.floor_le_floor h
    simpa using this
  have hup : (1 : ℚ)/2 ≤ q - ⌊q⌋ → ⌊q⌋ < m := by
    intro h1
    have h2 : (⌊q⌋ : ℚ) < (m : ℚ) := by linarith
    exact_mod_cast h2
  unfold pyRound
  split_ifs with h1 h2 h3
  · exact hfl
  · have := hup (by linarith [not_lt.mp h1])
    omega
  · exact hfl
  · have := hup (not_lt.mp h1)
    omega

theorem pyRound_nonneg {q : ℚ} (h : 0 ≤ q) : 0 ≤ pyRound q := by
  have hfl : (0 : ℤ) ≤ ⌊q⌋ := Int.floor_nonneg.mpr h
  unfold pyRound
  split_ifs <;> omega

theorem nCongruent_le {n : ℕ} {f : ℚ} (hf1 : f ≤ 1) :
    nCongruent n f ≤ n := by
  have hmul : (n : ℚ) * f ≤ (n : ℚ) := by nlinarith [Nat.cast_nonneg (α := ℚ) n]
  have := pyRound_le (m := (n : ℤ)) (by exact_mod_cast hmul)
  exact Int.toNat_le.mpr this

theorem nCongruent_zero (f : ℚ) : nCongruent 0 f = 0 := by
  unfold nCongruent pyRound
  norm_num

theorem IsMakeTrialsOutput.length_ge {n : ℕ} {f : ℚ} {ts : List Trial}
    (h : IsMakeTrialsOutput n f ts) : n ≤ ts.length := by
  obtain ⟨wc₁, wc₂, hp⟩ := h
  have hl := hp.length_eq
  rw [List.length_append, length_congruentBlock, length_incongruentBlock] at hl
  omega

theorem IsMakeTrialsOutput.length_eq {n : ℕ} {f : ℚ} {ts : List Trial}
    (hf1 : f ≤ 1) (h : IsMakeTrialsOutput n f ts) :
    ts.length = n := by
  obtain ⟨wc₁, wc₂, hp⟩ := h
  have hl := hp.length_eq
  rw [List.length_append, length_congruentBlock, length_incongruentBlock] at hl
  have := nCongruent_le (f := f) hf1 (n := n)
  omega

/-! ### Equation lemmas for the per-event dispatch -/

@[simp] theorem applyQuit_phase (e : Event) (s : GameState) :
    (applyQuit e s).phase = s.phase := by
  unfold applyQuit; split <;> rfl

@[simp] theorem applyQuit_results (e : Event) (s : GameState) :
    (applyQuit e s).results = s.results := by
  unfold applyQuit; split <;> rfl

@[simp] theorem applyQuit_trialIndex (e : Event) (s : GameState) :
    (applyQuit e s).trialIndex = s.trialIndex := by
  unfold applyQuit; split <;> rfl

@[simp] theorem applyQuit_trials (e : Event) (s : GameState) :
    (applyQuit e s).trials = s.trials := by
  unfold applyQuit; split <;> rfl

@[simp] theorem applyQuit_stateTime (e : Event) (s : GameState) :
    (applyQuit e s).stateTime = s.stateTime := by
  unfold applyQuit; split <;> rfl

@[simp] theorem applyQuit_stimOnset (e : Event) (s : GameState) :
    (applyQuit e s).stimOnset = s.stimOnset := by
  unfold applyQuit; split <;> rfl

@[simp] theorem applyQuit_currentWord (e : Event) (s : GameState) :
    (applyQuit e s).currentWord = s.currentWord := by
  unfold applyQuit; split <;> rfl

@[simp] theorem applyQuit_currentArrow (e : Event) (s : GameState) :
    (applyQuit e s).currentArrow = s.currentArrow := by
  unfold applyQuit; split <;> rfl

@[simp] theorem applyQuit_score (e : Event) (s : GameState) :
    (applyQuit e s).score = s.score := by
  unfold applyQuit; split <;> rfl

theorem stepPhase_eq_start (cfg : Config) (t : ℚ) (e : Event) (rnd : Rand)
    (s : GameState) (h : s.phase = Phase.start) :
    stepPhase cfg t e rnd s =
      if isStartTrigger e then
        { s with trialIndex := 0, score := 0, results := [],
                 trials := rnd.newTrials, phase := Phase.fixation,
                 stateTime := t, randomVariant := rnd.variant }
      else s := by
  unfold stepPhase
  rw [h]

theorem stepPhase_eq_fixation (cfg : Config) (t : ℚ) (e : Event) (rnd : Rand)
    (s : GameState) (h : s.phase = Phase.fixation) :
    stepPhase cfg t e rnd s =
      if cfg.fixationDuration ≤ t - s.stateTime then
        { s with phase := Phase.stimulus, stateTime := t, stimOnset := some t,
                 currentWord := ((readTrial s).getD ⟨Direction.left, Direction.left⟩).word,
                 currentArrow := ((readTrial s).getD ⟨Direction.left, Direction.left⟩).arrow,
                 randomVariant := rnd.variant }
      else s := by
  unfold stepPhase
  rw [h]

theorem stepPhase_eq_stimulus (cfg : Config) (t : ℚ) (e : Event) (rnd : Rand)
    (s : GameState) (h : s.phase = Phase.stimulus) :
    stepPhase cfg t e rnd s =
      match responseOf e with
      | some resp =>
          { s with score := if decide (resp = s.currentWord) then s.score + 1 else s.score
                   results := s.results ++
                     [{ trial := s.trialIndex + 1, word := s.currentWord,
                        arrow := s.currentArrow, response := some resp,
                        correct := decide (resp = s.currentWord),
                        rt := some (t - s.stimOnset.getD 0) }]
                   phase := Phase.feedback
                   stateTime := t }
      | none =>
          if cfg.stimulusDuration ≤ t - s.stimOnset.getD 0 then
            { s with results := s.results ++
                       [{ trial := s.trialIndex + 1, word := s.currentWord,
                          arrow := s.currentArrow, response := none,
                          correct := false, rt := none }]
                     phase := Phase.feedback
                     stateTime := t }
          else s := by
  unfold stepPhase
  rw [h]

theorem stepPhase_eq_feedback (cfg : Config) (t : ℚ) (e : Event) (rnd : Rand)
    (s : GameState) (h : s.phase = Phase.feedback) :
    stepPhase cfg t e rnd s =
      if cfg.feedbackDuration ≤ t - s.stateTime then
        if cfg.totalTrials ≤ s.trialIndex + 1 then
          { s with trialIndex := s.trialIndex + 1, phase := Phase.finished,
                   stateTime := t }
        else
          { s with trialIndex := s.trialIndex + 1, phase := Phase.fixation,
                   stateTime := t }
      else s := by
  unfold stepPhase
  rw [h]

theorem stepPhase_eq_finished (cfg : Config) (t : ℚ) (e : Event) (rnd : Rand)
    (s : GameState) (h : s.phase = Phase.finished) :
    stepPhase cfg t e rnd s =
      match e with
      | Event.keydown Key.r => { s with phase := Phase.start }
      | Event.keydown Key.q => { s with running := false }
      | _ => s := by
  unfold stepPhase
  rw [h]

theorem stepPhase_stimulus_response (cfg : Config) (t : ℚ) (e : Event) (rnd : Rand)
    (s : GameState) (resp : Direction) (hp : s.phase = Phase.stimulus)
    (hre : responseOf e = some resp) :
    stepPhase cfg t e rnd s =
      { s with score := if decide (resp = s.currentWord) then s.score + 1 else s.score
               results := s.results ++
                 [{ trial := s.trialIndex + 1, word := s.currentWord,
                    arrow := s.currentArrow, response := some resp,
                    correct := decide (resp = s.currentWord),
                    rt := some (t - s.stimOnset.getD 0) }]
               phase := Phase.feedback
               stateTime := t } := by
  rw [stepPhase_eq_stimulus cfg t e rnd s hp, hre]

theorem stepPhase_stimulus_noresponse (cfg : Config) (t : ℚ) (e : Event) (rnd : Rand)
    (s : GameState) (hp : s.phase = Phase.stimulus)
    (hre : responseOf e = none) :
    stepPhase cfg t e rnd s =
      if cfg.stimulusDuration ≤ t - s.stimOnset.getD 0 then
        { s with results := s.results ++
                   [{ trial := s.trialIndex + 1, word := s.currentWord,
                      arrow := s.currentArrow, response := none,
                      correct := false, rt := none }]
                 phase := Phase.feedback
                 stateTime := t }
      else s := by
  rw [stepPhase_eq_stimulus cfg t e rnd s hp, hre]

theorem applyQuit_setArrow (e : Event) (s : GameState) (a : Direction) :
    applyQuit e { s with currentArrow := a } =
      { applyQuit e s with currentArrow := a } := by
  unfold applyQuit
  by_cases hq : e = Event.quit
  · rw [if_pos hq, if_pos hq]
  · rw [if_neg hq, if_neg hq]

/-! ### Invariants of reachable states -/

theorem map_trial_append (rs : List TrialResult) (r : TrialResult)
    (hmap : rs.map (fun x => x.trial) = List.range' 1 rs.length)
    (htr : r.trial = rs.length + 1) :
    (rs ++ [r]).map (fun x => x.trial) = List.range' 1 (rs ++ [r]).length := by
  rw [List.map_append, hmap, List.length_append]
  simp only [List.map_cons, List.map_nil, List.length_cons, List.length_nil]
  rw [show rs.length + (0 + 1) = rs.length + 1 by omega, List.range'_1_concat]
  rw [htr, Nat.add_comm 1 rs.length]

theorem invA_applyQuit (e : Event) (s : GameState) (h : InvA s) :
    InvA (applyQuit e s) := by
  unfold applyQuit
  split
  · exact h
  · exact h

theorem invA_stepEvent (cfg : Config) (t : ℚ) (e : Event) (rnd : Rand)
    (s : GameState) (h : InvA s) : InvA (stepEvent cfg t e rnd s) := by
  have h' : InvA (applyQuit e s) := invA_applyQuit e s h
  unfold stepEvent
  set s' := applyQuit e s with hs'
  clear_value s'
  clear hs' h
  obtain ⟨h1, h2, h3⟩ := h'
  cases hp : s'.phase
  case start =>
    rw [stepPhase_eq_start cfg t e rnd s' hp]
    by_cases hc : isStartTrigger e = true
    · rw [if_pos hc]
      refine ⟨?_, ?_, ?_⟩ <;> simp
    · rw [if_neg hc]
      exact ⟨h1, h2, h3⟩
  case fixation =>
    rw [stepPhase_eq_fixation cfg t e rnd s' hp]
    have hlen : s'.results.length = s'.trialIndex := h2 (by rw [hp]; simp)
    by_cases hc : cfg.fixationDuration ≤ t - s'.stateTime
    · rw [if_pos hc]
      refine ⟨?_, ?_, ?_⟩
      · intro hf; simp at hf
      · intro _; simpa using hlen
      · simpa using h3
    · rw [if_neg hc]
      exact ⟨h1, h2, h3⟩
  case stimulus =>
    rw [stepPhase_eq_stimulus cfg t e rnd s' hp]
    have hlen : s'.results.length = s'.trialIndex := h2 (by rw [hp]; simp)
    cases hr : responseOf e
    case none =>
      by_cases hc : cfg.stimulusDuration ≤ t - s'.stimOnset.getD 0
      · rw [if_pos hc]
        refine ⟨?_, ?_, ?_⟩
        · intro _; simp [hlen]
        · intro hf; simp at hf
        · exact map_trial_append _ _ h3 (by simp [hlen])
      · rw [if_neg hc]
        exact ⟨h1, h2, h3⟩
    case some resp =>
      refine ⟨?_, ?_, ?_⟩
      · intro _; simp [hlen]
      · intro hf; simp at hf
      · exact map_trial_append _ _ h3 (by simp [hlen])
  case feedback =>
    rw [stepPhase_eq_feedback cfg t e rnd s' hp]
    have hlen : s'.results.length = s'.trialIndex + 1 := h1 hp
    by_cases hc : cfg.feedbackDuration ≤ t - s'.stateTime
    · rw [if_pos hc]
      by_cases hn : cfg.totalTrials ≤ s'.trialIndex + 1
      · rw [if_pos hn]
        refine ⟨?_, ?_, ?_⟩
        · intro hf; simp at hf
        · intro _; simpa using hlen
        · simpa using h3
      · rw [if_neg hn]
        refine ⟨?_, ?_, ?_⟩
        · intro hf; simp at hf
        · intro _; simpa using hlen
        · simpa using h3
    · rw [if_neg hc]
      exact ⟨h1, h2, h3⟩
  case finished =>
    rw [stepPhase_eq_finished cfg t e rnd s' hp]
    have hlen : s'.results.length = s'.trialIndex := h2 (by rw [hp]; simp)
    cases e with
    | quit => exact ⟨h1, h2, h3⟩
    | mousedown b x y => exact ⟨h1, h2, h3⟩
    | motion => exact ⟨h1, h2, h3⟩
    | keydown k =>
        cases k with
        | r =>
            refine ⟨?_, ?_, ?_⟩
            · intro hf; simp at hf
            · intro _; simpa using hlen
            · simpa using h3
        | q =>
            refine ⟨?_, ?_, ?_⟩
            · intro hf; simp [hp] at hf
            · intro _; simpa using hlen
            · simpa using h3
        | space => exact ⟨h1, h2, h3⟩
        | left => exact ⟨h1, h2, h3⟩
        | right => exact ⟨h1, h2, h3⟩
        | other => exact ⟨h1, h2, h3⟩

theorem invA_frame (cfg : Config) (t : ℚ) (es : List (Event × Rand))
    (s : GameState) (h : InvA s) : InvA (frame cfg t es s) := by
  induction es generalizing s with
  | nil => exact h
  | cons p es ih =>
      exact ih (stepEvent cfg t p.1 p.2 s) (invA_stepEvent cfg t p.1 p.2 s h)

theorem reachable_invA {cfg : Config} {s : GameState} (h : Reachable cfg s) :
    InvA s := by
  induction h with
  | init ts hts =>
      refine ⟨?_, ?_, ?_⟩ <;> simp [initState]
  | step s t es hs hrun hr ih => exact invA_frame cfg t es s ih

theorem invB_applyQuit (cfg : Config) (e : Event) (s : GameState)
    (h : InvB cfg s) : InvB cfg (applyQuit e s) := by
  unfold applyQuit
  split
  · exact h
  · exact h

theorem invB_stepEvent (cfg : Config) (t : ℚ) (e : Event) (rnd : Rand)
    (s : GameState) (ht : 1 ≤ cfg.totalTrials) (hrand : RandOK cfg rnd)
    (h : InvB cfg s) : InvB cfg (stepEvent cfg t e rnd s) := by
  have h' : InvB cfg (applyQuit e s) := invB_applyQuit cfg e s h
  unfold stepEvent
  set s' := applyQuit e s with hs'
  clear_value s'
  clear hs' h
  obtain ⟨h1, h2, h3⟩ := h'
  cases hp : s'.phase
  case start =>
    rw [stepPhase_eq_start cfg t e rnd s' hp]
    by_cases hc : isStartTrigger e = true
    · rw [if_pos hc]
      refine ⟨by simpa using hrand.1.length_ge, ?_, ?_⟩
      · intro _; simpa using ht
      · simp
    · rw [if_neg hc]
      exact ⟨h1, h2, h3⟩
  case fixation =>
    rw [stepPhase_eq_fixation cfg t e rnd s' hp]
    have hidx : s'.trialIndex < cfg.totalTrials := h2 (Or.inl hp)
    by_cases hc : cfg.fixationDuration ≤ t - s'.stateTime
    · rw [if_pos hc]
      exact ⟨h1, fun _ => hidx, h3⟩
    · rw [if_neg hc]
      exact ⟨h1, h2, h3⟩
  case stimulus =>
    rw [stepPhase_eq_stimulus cfg t e rnd s' hp]
    have hidx : s'.trialIndex < cfg.totalTrials := h2 (Or.inr (Or.inl hp))
    cases hr : responseOf e
    case none =>
      by_cases hc : cfg.stimulusDuration ≤ t - s'.stimOnset.getD 0
      · rw [if_pos hc]
        exact ⟨h1, fun _ => hidx, h3⟩
      · rw [if_neg hc]
        exact ⟨h1, h2, h3⟩
    case some resp =>
      exact ⟨h1, fun _ => hidx, h3⟩
  case feedback =>
    rw [stepPhase_eq_feedback cfg t e rnd s' hp]
    have hidx : s'.trialIndex < cfg.totalTrials := h2 (Or.inr (Or.inr hp))
    by_cases hc : cfg.feedbackDuration ≤ t - s'.stateTime
    · rw [if_pos hc]
      by_cases hn : cfg.totalTrials ≤ s'.trialIndex + 1
      · rw [if_pos hn]
        refine ⟨h1, ?_, ?_⟩
        · intro hor
          rcases hor with hh | hh | hh <;> simp at hh
        · simp
          omega
      · rw [if_neg hn]
        refine ⟨h1, ?_, ?_⟩
        · intro _
          simp
          omega
        · simp
          omega
    · rw [if_neg hc]
      exact ⟨h1, h2, h3⟩
  case finished =>
    rw [stepPhase_eq_finished cfg t e rnd s' hp]
    cases e with
    | quit => exact ⟨h1, h2, h3⟩
    | mousedown b x y => exact ⟨h1, h2, h3⟩
    | motion => exact ⟨h1, h2, h3⟩
    | keydown k =>
        cases k with
        | r =>
            refine ⟨h1, ?_, h3⟩
            intro hor
            rcases hor with hh | hh | hh <;> simp at hh
        | q => exact ⟨h1, fun hor => h2 hor, h3⟩
        | space => exact ⟨h1, h2, h3⟩
        | left => exact ⟨h1, h2, h3⟩
        | right => exact ⟨h1, h2, h3⟩
        | other => exact ⟨h1, h2, h3⟩

theorem invB_frame (cfg : Config) (t : ℚ) (es : List (Event × Rand))
    (s : GameState) (ht : 1 ≤ cfg.totalTrials)
    (hr : ∀ p ∈ es, RandOK cfg p.2) (h : InvB cfg s) :
    InvB cfg (frame cfg t es s) := by
  induction es generalizing s with
  | nil => exact h
  | cons p es ih =>
      exact ih (stepEvent cfg t p.1 p.2 s)
        (fun q hq => hr q (List.mem_cons_of_mem p hq))
        (invB_stepEvent cfg t p.1 p.2 s ht (hr p (List.mem_cons_self p es)) h)

theorem reachable_invB {cfg : Config} {s : GameState}
    (ht : 1 ≤ cfg.totalTrials) (h : Reachable cfg s) : InvB cfg s := by
  induction h with
  | init ts hts =>
      refine ⟨by simpa [initState] using hts.length_ge, ?_, ?_⟩
      · intro hor
        rcases hor with hh | hh | hh <;> simp [initState] at hh
      · simp [initState]
  | step s t es hs hrun hr ih => exact invB_frame cfg t es s ht hr ih

/-! ### Counting congruent and incongruent trials -/

theorem countP_congruent_congruentBlock (wc : ℕ → Direction) (k : ℕ) :
    (congruentBlock wc k).countP (fun tr => decide (tr.arrow = tr.word)) = k := by
  have h : (congruentBlock wc k).countP (fun tr => decide (tr.arrow = tr.word)) =
      (congruentBlock wc k).length :=
    List.countP_eq_length.mpr
      (fun a ha => by simpa using arrow_eq_word_of_mem_congruentBlock ha)
  rw [h, length_congruentBlock]

theorem countP_congruent_incongruentBlock (wc : ℕ → Direction) (k : ℕ) :
    (incongruentBlock wc k).countP (fun tr => decide (tr.arrow = tr.word)) = 0 :=
  List.countP_eq_zero.mpr
    (fun a ha => by simpa using arrow_ne_word_of_mem_incongruentBlock ha)

theorem countP_incongruent_incongruentBlock (wc : ℕ → Direction) (k : ℕ) :
    (incongruentBlock wc k).countP (fun tr => decide (tr.arrow ≠ tr.word)) = k := by
  have h : (incongruentBlock wc k).countP (fun tr => decide (tr.arrow ≠ tr.word)) =
      (incongruentBlock wc k).length :=
    List.countP_eq_length.mpr
      (fun a ha => by simpa using arrow_ne_word_of_mem_incongruentBlock ha)
  rw [h, length_incongruentBlock]

theorem countP_incongruent_congruentBlock (wc : ℕ → Direction) (k : ℕ) :
    (congruentBlock wc k).countP (fun tr => decide (tr.arrow ≠ tr.word)) = 0 :=
  List.countP_eq_zero.mpr
    (fun a ha => by simpa using arrow_eq_word_of_mem_congruentBlock ha)

section DemoEval

attribute [local semireducible] Rat.add Rat.sub Rat.mul Rat.inv Rat.ofScientific

theorem demoTrials_ok : IsMakeTrialsOutput 40 (1/2 : ℚ) demoTrials := by
  refine ⟨fun _ => Direction.left, fun _ => Direction.left, ?_⟩
  have h : demoTrials =
      congruentBlock (fun _ => Direction.left) (nCongruent 40 (1/2)) ++
      incongruentBlock (fun _ => Direction.left) (40 - nCongruent 40 (1/2)) := by
    decide
  rw [h]

theorem demoRand_ok : RandOK defaultConfig demoRand :=
  ⟨demoTrials_ok, by decide⟩

theorem demo_reach_init : Reachable defaultConfig (initState demoTrials) :=
  Reachable.init demoTrials demoTrials_ok

theorem demo_reach_fix : Reachable defaultConfig demoFix := by
  refine Reachable.step _ 0 _ demo_reach_init (by decide) ?_
  intro p hp
  simp only [List.mem_singleton] at hp
  rw [hp]
  exact demoRand_ok

theorem demo_reach_stim : Reachable defaultConfig demoStim := by
  refine Reachable.step _ 1 _ demo_reach_fix (by decide) ?_
  intro p hp
  simp only [List.mem_singleton] at hp
  rw [hp]
  exact demoRand_ok

theorem demo_reach_fb : Reachable defaultConfig demoFb := by
  refine Reachable.step _ 3 _ demo_reach_stim (by decide) ?_
  intro p hp
  simp only [List.mem_singleton] at hp
  rw [hp]
  exact demoRand_ok

theorem demo_reach_zeroRT : Reachable defaultConfig demoZeroRT := by
  refine Reachable.step _ 1 _ demo_reach_stim (by decide) ?_
  intro p hp
  simp only [List.mem_singleton] at hp
  rw [hp]
  exact demoRand_ok

theorem demoFix_phase : demoFix.phase = Phase.fixation := by decide

theorem demoStim_phase : demoStim.phase = Phase.stimulus := by decide

theorem demoStim_onset : demoStim.stimOnset = some 1 := by decide

theorem demoFb_state : demoFb.phase = Phase.feedback ∧
    demoFb.results.length = 1 ∧ demoFb.trialIndex = 0 := by decide

theorem demoZeroRT_results : demoZeroRT.results = demoRs := by decide

theorem demoFix_long_elapsed :
    defaultConfig.fixationDuration ≤ 100 - demoFix.stateTime := by decide

theorem demoStim_timeout_elapsed :
    defaultConfig.stimulusDuration ≤ (3 : ℚ) - 1 := by decide

theorem demoRs_filter_ne :
    demoRs.filter (fun r => r.correct) ≠ [] := by decide

theorem demoRs_avg_zero : calc_avg_rt demoRs = 0 := by decide

theorem demoRs_shows_no_data : finishedShowsAvg demoRs = false := by decide

theorem demoSmallTrials_ok : IsMakeTrialsOutput 4 (1/2 : ℚ) demoSmallTrials := by
  refine ⟨fun _ => Direction.left, fun _ => Direction.left, ?_⟩
  have h : demoSmallTrials =
      congruentBlock (fun _ => Direction.left) (nCongruent 4 (1/2)) ++
      incongruentBlock (fun _ => Direction.left) (4 - nCongruent 4 (1/2)) := by
    decide
  rw [h]

theorem zeroTrials_ok :
    IsMakeTrialsOutput zeroConfig.totalTrials zeroConfig.congruencyProportion
      ([] : List Trial) := by
  refine ⟨fun _ => Direction.left, fun _ => Direction.left, ?_⟩
  have h : ([] : List Trial) =
      congruentBlock (fun _ => Direction.left)
        (nCongruent zeroConfig.totalTrials zeroConfig.congruencyProportion) ++
      incongruentBlock (fun _ => Direction.left)
        (zeroConfig.totalTrials -
          nCongruent zeroConfig.totalTrials zeroConfig.congruencyProportion) := by
    decide
  rw [h]

theorem zero_reach_init : Reachable zeroConfig (initState []) :=
  Reachable.init [] zeroTrials_ok

theorem zero_reach_fix : Reachable zeroConfig zeroFix := by
  refine Reachable.step _ 0 _ zero_reach_init (by decide) ?_
  intro p hp
  simp only [List.mem_singleton] at hp
  rw [hp]
  exact ⟨zeroTrials_ok, by decide⟩

theorem zeroFix_state :
    zeroFix.phase = Phase.fixation ∧ zeroFix.trialIndex = 0 ∧
    zeroFix.trials = [] ∧ readTrial zeroFix = none := by decide

theorem zeroFix_elapsed : zeroConfig.fixationDuration ≤ 1 - zeroFix.stateTime := by
  decide

theorem zeroFix_step_stimulus :
    (stepEvent zeroConfig 1 Event.motion ⟨[], 0⟩ zeroFix).phase = Phase.stimulus := by
  decide

end DemoEval

/-! ### Claim theorems -/

/-- Claim C4: for every `n` and congruent fraction `f` in `[0, 1]`,
every `make_trials n f` output has exactly `round(n*f)` trials with
`arrow == word` and `n - round(n*f)` trials with `arrow != word`,
regardless of shuffle order; `n = 0` yields an empty sequence. -/
theorem claimC4_congruency_counts (n : ℕ) (f : ℚ) (ts : List Trial)
    (hf0 : 0 ≤ f) (hf1 : f ≤ 1) (hts : IsMakeTrialsOutput n f ts) :
    ts.countP (fun tr => decide (tr.arrow = tr.word)) = nCongruent n f
    ∧ ts.countP (fun tr => decide (tr.arrow ≠ tr.word)) = n - nCongruent n f
    ∧ ts.length = n
    ∧ (n = 0 → ts = []) := by
  obtain ⟨wc₁, wc₂, hp⟩ := hts
  have hlen : ts.length = n := IsMakeTrialsOutput.length_eq hf1 ⟨wc₁, wc₂, hp⟩
  refine ⟨?_, ?_, hlen, ?_⟩
  · rw [hp.countP_eq, List.countP_append, countP_congruent_congruentBlock,
      countP_congruent_incongruentBlock]
    omega
  · rw [hp.countP_eq, List.countP_append, countP_incongruent_congruentBlock,
      countP_incongruent_incongruentBlock]
    omega
  · intro hn
    rw [hn] at hlen
    exact List.eq_nil_of_length_eq_zero hlen

/-- Witness for C4: the concrete `make_trials 4 0.5` output
`demoSmallTrials` has 2 congruent and 2 incongruent trials. -/
theorem claimC4_witness :
    demoSmallTrials.countP (fun tr => decide (tr.arrow = tr.word)) = nCongruent 4 (1/2)
    ∧ demoSmallTrials.countP (fun tr => decide (tr.arrow ≠ tr.word)) = 4 - nCongruent 4 (1/2)
    ∧ demoSmallTrials.length = 4
    ∧ ((4 : ℕ) = 0 → demoSmallTrials = []) :=
  claimC4_congruency_counts 4 (1/2) demoSmallTrials (by norm_num) (by norm_num)
    demoSmallTrials_ok

/-- Claim C3, counterexample: `len(results) == trialIndex` does not
hold in every reachable non-Start state — in this reachable Feedback
state the results log already holds the just-recorded trial while
`trial_index` is still 0 (it is incremented only on leaving Feedback,
p.py line 347). -/
theorem claimC3_counterexample :
    Reachable defaultConfig demoFb ∧ demoFb.phase ≠ Phase.start ∧
      ¬ demoFb.results.length = demoFb.trialIndex := by
  refine ⟨demo_reach_fb, ?_, ?_⟩
  · rw [demoFb_state.1]
    simp
  · rw [demoFb_state.2.1, demoFb_state.2.2]
    simp

/-- Claim C3, amended: in every reachable state
`len(results) == trialIndex` holds outside the Feedback phase, while in
Feedback `len(results) == trialIndex + 1`; and `trialIndex` increases
by exactly one each time Feedback exits. -/
theorem claimC3_amended (cfg : Config) (s : GameState) (h : Reachable cfg s) :
    (s.phase ≠ Phase.feedback → s.results.length = s.trialIndex)
    ∧ (s.phase = Phase.feedback → s.results.length = s.trialIndex + 1)
    ∧ (∀ t e rnd, s.phase = Phase.feedback →
        (stepEvent cfg t e rnd s).phase ≠ Phase.feedback →
        (stepEvent cfg t e rnd s).trialIndex = s.trialIndex + 1) := by
  obtain ⟨h1, h2, h3⟩ := reachable_invA h
  refine ⟨h2, h1, ?_⟩
  intro t e rnd hfb hex
  have hpq : (applyQuit e s).phase = Phase.feedback := by
    rw [applyQuit_phase]; exact hfb
  unfold stepEvent at hex ⊢
  rw [stepPhase_eq_feedback cfg t e rnd _ hpq] at hex ⊢
  by_cases hc : cfg.feedbackDuration ≤ t - (applyQuit e s).stateTime
  · rw [if_pos hc] at hex ⊢
    by_cases hn : cfg.totalTrials ≤ (applyQuit e s).trialIndex + 1
    · rw [if_pos hn] at hex ⊢
      simp
    · rw [if_neg hn] at hex ⊢
      simp
  · rw [if_neg hc] at hex ⊢
    exact absurd hpq hex

/-- Witness for the amended C3 at the reachable Feedback state
`demoFb`. -/
theorem claimC3_witness :
    (demoFb.phase ≠ Phase.feedback → demoFb.results.length = demoFb.trialIndex)
    ∧ (demoFb.phase = Phase.feedback → demoFb.results.length = demoFb.trialIndex + 1)
    ∧ (∀ t e rnd, demoFb.phase = Phase.feedback →
        (stepEvent defaultConfig t e rnd demoFb).phase ≠ Phase.feedback →
        (stepEvent defaultConfig t e rnd demoFb).trialIndex = demoFb.trialIndex + 1) :=
  claimC3_amended defaultConfig demoFb demo_reach_fb

/-- Claim C6: contradicted by the code.  Every timed-transition check
(p.py lines 285, 329, 346) sits inside the per-event loop, so a frame
whose event queue is empty performs no time-based transition: this
reachable Fixation state whose 0.5 s fixation duration elapsed long ago
is returned unchanged by an event-free frame at `t = 100`. -/
theorem claimC6_empty_queue_no_transition :
    Reachable defaultConfig demoFix
    ∧ demoFix.phase = Phase.fixation
    ∧ defaultConfig.fixationDuration ≤ 100 - demoFix.stateTime
    ∧ frame defaultConfig 100 [] demoFix = demoFix :=
  ⟨demo_reach_fix, demoFix_phase, demoFix_long_elapsed, rfl⟩

/-- Claim C7, counterexample: there is no configuration validation.
With `totalTrials = 0` the SPACE handler still starts the session: the
phase after the press is Fixation, not Start. -/
theorem claimC7_counterexample :
    zeroConfig.totalTrials = 0
    ∧ Reachable zeroConfig zeroFix
    ∧ zeroFix.phase = Phase.fixation
    ∧ zeroFix.phase ≠ Phase.start := by
  refine ⟨rfl, zero_reach_fix, zeroFix_state.1, ?_⟩
  rw [zeroFix_state.1]
  simp

/-- Claim C7, amended: the code never validates the configuration;
with `totalTrials = 0` the session starts (Start → Fixation on SPACE),
and when the fixation timer elapses the machine performs the
out-of-bounds read `trials[0]` on the empty trial list (`readTrial`
is `none` — in Python a fatal IndexError) while moving to Stimulus,
rather than rejecting the session at construction. -/
theorem claimC7_amended :
    Reachable zeroConfig zeroFix
    ∧ zeroFix.phase = Phase.fixation
    ∧ zeroConfig.fixationDuration ≤ 1 - zeroFix.stateTime
    ∧ zeroFix.trialIndex = 0
    ∧ zeroFix.trials = []
    ∧ readTrial zeroFix = none
    ∧ (stepEvent zeroConfig 1 Event.motion ⟨[], 0⟩ zeroFix).phase = Phase.stimulus :=
  ⟨zero_reach_fix, zeroFix_state.1, zeroFix_elapsed, zeroFix_state.2.1,
   zeroFix_state.2.2.1, zeroFix_state.2.2.2, zeroFix_step_stimulus⟩

/-- Claim C10, counterexample to the display clause: this reachable run
records a correct response with reaction time 0 (a response processed
at the same frame timestamp as the stimulus onset); its average is 0,
so the finished screen's `avg > 0` check (p.py line 427) takes the
no-data branch even though a correct response exists — the caller does
not distinguish no data from a genuine zero-seconds average. -/
theorem claimC10_counterexample :
    Reachable defaultConfig demoZeroRT
    ∧ demoZeroRT.results = demoRs
    ∧ demoRs.filter (fun r => r.correct) ≠ []
    ∧ calc_avg_rt demoRs = 0
    ∧ finishedShowsAvg demoRs = false :=
  ⟨demo_reach_zeroRT, demoZeroRT_results, demoRs_filter_ne, demoRs_avg_zero,
   demoRs_shows_no_data⟩

/-- Claim C10, amended: `calc_avg_rt` returns 0 when no correct
responses exist and otherwise the mean of the recorded reaction times
over the correct results; but the finished screen shows the numeric
average only when it is strictly positive, so it does not distinguish
the no-data case from a genuine zero-seconds average. -/
theorem claimC10_amended (rs : List TrialResult) :
    (rs.filter (fun r => r.correct) = [] → calc_avg_rt rs = 0)
    ∧ (rs.filter (fun r => r.correct) ≠ [] →
        calc_avg_rt rs * ((rs.filter (fun r => r.correct)).length : ℚ)
          = ((rs.filter (fun r => r.correct)).map (fun r => r.rt.getD 0)).sum)
    ∧ (finishedShowsAvg rs = true ↔ 0 < calc_avg_rt rs) := by
  refine ⟨?_, ?_, ?_⟩
  · intro hf
    unfold calc_avg_rt
    by_cases hrs : rs = []
    · rw [if_pos hrs]
    · rw [if_neg hrs, if_pos (by rw [hf]; rfl)]
  · intro hf
    have hmne : (rs.filter (fun r => r.correct)).map (fun r => r.rt.getD 0) ≠ [] := by
      simpa using hf
    have hrs : rs ≠ [] := by
      intro hnil
      apply hf
      rw [hnil]
      rfl
    unfold calc_avg_rt
    rw [if_neg hrs, if_neg hmne]
    simp only [List.length_map]
    exact div_mul_cancel₀ _ (Nat.cast_ne_zero.mpr (List.length_pos.mpr hf).ne')
  · unfold finishedShowsAvg
    simp

/-- Witness for the amended C10: the empty log has average 0, and on
the concrete log `demoRs` the mean characterization holds. -/
theorem claimC10_witness :
    calc_avg_rt [] = 0
    ∧ calc_avg_rt demoRs * ((demoRs.filter (fun r => r.correct)).length : ℚ)
        = ((demoRs.filter (fun r => r.correct)).map (fun r => r.rt.getD 0)).sum :=
  ⟨(claimC10_amended []).1 rfl, (claimC10_amended demoRs).2.1 demoRs_filter_ne⟩

/-- Claim C1: every result recorded by the stimulus dispatch has
`correct = (response is not None) and (response == word)` (correctness
judged by the word, p.py line 311, and a timeout always scored
incorrect, line 336), and the trial's arrow never affects the
correctness flags: changing `current_arrow` while holding everything
else fixed leaves the `correct` flags of the results unchanged. -/
theorem claimC1_correctness_from_word_only (cfg : Config) (t : ℚ) (e : Event)
    (rnd : Rand) (s : GameState) (hp : s.phase = Phase.stimulus) (a : Direction) :
    (∀ res ∈ (stepEvent cfg t e rnd s).results.drop s.results.length,
        res.correct = decide (res.response ≠ none ∧ res.response = some res.word))
    ∧ (stepEvent cfg t e rnd { s with currentArrow := a }).results.map (fun r => r.correct)
        = (stepEvent cfg t e rnd s).results.map (fun r => r.correct) := by
  have hpq : (applyQuit e s).phase = Phase.stimulus := by
    rw [applyQuit_phase]; exact hp
  have hpq2 : (applyQuit e { s with currentArrow := a }).phase = Phase.stimulus := by
    rw [applyQuit_phase]; exact hp
  unfold stepEvent
  cases hre : responseOf e with
  | some resp =>
      rw [stepPhase_stimulus_response cfg t e rnd _ resp hpq hre,
        stepPhase_stimulus_response cfg t e rnd _ resp hpq2 hre,
        applyQuit_setArrow]
      constructor
      · intro res hres
        simp only [applyQuit_results] at hres
        rw [List.drop_left] at hres
        simp only [List.mem_singleton] at hres
        rw [hres]
        simp [decide_eq_decide]
      · simp
  | none =>
      rw [stepPhase_stimulus_noresponse cfg t e rnd _ hpq hre,
        stepPhase_stimulus_noresponse cfg t e rnd _ hpq2 hre,
        applyQuit_setArrow]
      by_cases hto : cfg.stimulusDuration ≤ t - (applyQuit e s).stimOnset.getD 0
      · rw [if_pos hto, if_pos (by simpa using hto)]
        constructor
        · intro res hres
          simp only [applyQuit_results] at hres
          rw [List.drop_left] at hres
          simp only [List.mem_singleton] at hres
          rw [hres]
          simp
        · simp
      · rw [if_neg hto, if_neg (by simpa using hto)]
        constructor
        · intro res hres
          simp only [applyQuit_results, List.drop_length] at hres
          simp at hres
        · simp

/-- Witness for C1 at the reachable Stimulus state `demoStim`. -/
theorem claimC1_witness :
    (∀ res ∈ (stepEvent defaultConfig 3 Event.motion demoRand demoStim).results.drop
        demoStim.results.length,
        res.correct = decide (res.response ≠ none ∧ res.response = some res.word))
    ∧ (stepEvent defaultConfig 3 Event.motion demoRand
          { demoStim with currentArrow := Direction.right }).results.map (fun r => r.correct)
        = (stepEvent defaultConfig 3 Event.motion demoRand demoStim).results.map
            (fun r => r.correct) :=
  claimC1_correctness_from_word_only defaultConfig 3 Event.motion demoRand demoStim
    demoStim_phase Direction.right

/-- Claim C2: when an event is dispatched in the Stimulus phase with no
response extracted from it and the stimulus deadline has passed since
onset, exactly one TrialResult with `response = None`,
`correct = False`, `rt = None` is appended (p.py lines 329-338) and the
machine moves to Feedback. -/
theorem claimC2_timeout_records_single_miss (cfg : Config) (t t₀ : ℚ) (e : Event)
    (rnd : Rand) (s : GameState) (hp : s.phase = Phase.stimulus)
    (ho : s.stimOnset = some t₀) (hre : responseOf e = none)
    (hto : cfg.stimulusDuration ≤ t - t₀) :
    (stepEvent cfg t e rnd s).results =
      s.results ++ [{ trial := s.trialIndex + 1, word := s.currentWord,
                      arrow := s.currentArrow, response := none,
                      correct := false, rt := none }]
    ∧ (stepEvent cfg t e rnd s).phase = Phase.feedback := by
  have hpq : (applyQuit e s).phase = Phase.stimulus := by
    rw [applyQuit_phase]; exact hp
  unfold stepEvent
  rw [stepPhase_stimulus_noresponse cfg t e rnd _ hpq hre]
  rw [if_pos (show cfg.stimulusDuration ≤ t - (applyQuit e s).stimOnset.getD 0 by
    rw [applyQuit_stimOnset, ho]; simpa using hto)]
  constructor
  · simp
  · rfl

/-- Witness for C2: the timeout event at `t = 3` in the reachable
Stimulus state `demoStim` (onset 1, deadline 1.2). -/
theorem claimC2_witness :
    (stepEvent defaultConfig 3 Event.motion demoRand demoStim).results =
      demoStim.results ++ [{ trial := demoStim.trialIndex + 1,
                             word := demoStim.currentWord,
                             arrow := demoStim.currentArrow,
                             response := none, correct := false, rt := none }]
    ∧ (stepEvent defaultConfig 3 Event.motion demoRand demoStim).phase = Phase.feedback :=
  claimC2_timeout_records_single_miss defaultConfig 3 1 Event.motion demoRand demoStim
    demoStim_phase demoStim_onset rfl demoStim_timeout_elapsed

/-- Claim C5: per trial at most one TrialResult is recorded — in every
reachable state the recorded trial numbers are pairwise distinct; when
a response event and the timeout condition both apply in one dispatch
step, the response takes precedence (the appended record carries the
response, p.py lines 309-327, because the timeout check on line 329 is
guarded by `state == "stimulus"`); and once Feedback is entered no event
changes the results log. -/
theorem claimC5_single_result_per_trial (cfg : Config) (s : GameState)
    (h : Reachable cfg s) :
    (s.results.map (fun r => r.trial)).Nodup
    ∧ (∀ (t : ℚ) (e : Event) (rnd : Rand) (resp : Direction) (t₀ : ℚ),
        s.phase = Phase.stimulus → responseOf e = some resp →
        s.stimOnset = some t₀ → cfg.stimulusDuration ≤ t - t₀ →
        (stepEvent cfg t e rnd s).results =
          s.results ++ [{ trial := s.trialIndex + 1, word := s.currentWord,
                          arrow := s.currentArrow, response := some resp,
                          correct := decide (resp = s.currentWord),
                          rt := some (t - t₀) }])
    ∧ (∀ (t : ℚ) (e : Event) (rnd : Rand), s.phase = Phase.feedback →
        (stepEvent cfg t e rnd s).results = s.results) := by
  obtain ⟨h1, h2, h3⟩ := reachable_invA h
  refine ⟨?_, ?_, ?_⟩
  · rw [h3]
    exact List.nodup_range' 1 _
  · intro t e rnd resp t₀ hp hre ho hto
    have hpq : (applyQuit e s).phase = Phase.stimulus := by
      rw [applyQuit_phase]; exact hp
    unfold stepEvent
    rw [stepPhase_stimulus_response cfg t e rnd _ resp hpq hre]
    simp [ho]
  · intro t e rnd hp
    have hpq : (applyQuit e s).phase = Phase.feedback := by
      rw [applyQuit_phase]; exact hp
    unfold stepEvent
    rw [stepPhase_eq_feedback cfg t e rnd _ hpq]
    by_cases hc : cfg.feedbackDuration ≤ t - (applyQuit e s).stateTime
    · rw [if_pos hc]
      by_cases hn : cfg.totalTrials ≤ (applyQuit e s).trialIndex + 1
      · rw [if_pos hn]
        simp
      · rw [if_neg hn]
        simp
    · rw [if_neg hc]
      simp

/-- Witness for C5 at the reachable Feedback state `demoFb`. -/
theorem claimC5_witness :
    (demoFb.results.map (fun r => r.trial)).Nodup
    ∧ (∀ (t : ℚ) (e : Event) (rnd : Rand) (resp : Direction) (t₀ : ℚ),
        demoFb.phase = Phase.stimulus → responseOf e = some resp →
        demoFb.stimOnset = some t₀ → defaultConfig.stimulusDuration ≤ t - t₀ →
        (stepEvent defaultConfig t e rnd demoFb).results =
          demoFb.results ++ [{ trial := demoFb.trialIndex + 1,
                               word := demoFb.currentWord,
                               arrow := demoFb.currentArrow,
                               response := some resp,
                               correct := decide (resp = demoFb.currentWord),
                               rt := some (t - t₀) }])
    ∧ (∀ (t : ℚ) (e : Event) (rnd : Rand), demoFb.phase = Phase.feedback →
        (stepEvent defaultConfig t e rnd demoFb).results = demoFb.results) :=
  claimC5_single_result_per_trial defaultConfig demoFb demo_reach_fb

/-- Claim C8: with at least one configured trial, in every reachable
state the `trials[trial_index]` reads (p.py lines 290 and 373) are in
bounds whenever Fixation or Stimulus is active, and in Feedback the
results log is non-empty with its last entry the current trial's
result — so the defensive invariant-violation faults are
unreachable. -/
theorem claimC8_defensive_faults_unreachable (cfg : Config) (s : GameState)
    (ht : 1 ≤ cfg.totalTrials) (h : Reachable cfg s) :
    ((s.phase = Phase.fixation ∨ s.phase = Phase.stimulus) →
        s.trialIndex < s.trials.length ∧ readTrial s ≠ none)
    ∧ (s.phase = Phase.feedback →
        s.results ≠ [] ∧
        ∃ res, s.results.getLast? = some res ∧ res.trial = s.trialIndex + 1) := by
  obtain ⟨hA1, hA2, hA3⟩ := reachable_invA h
  obtain ⟨hB1, hB2, hB3⟩ := reachable_invB ht h
  constructor
  · intro hor
    have hidx : s.trialIndex < cfg.totalTrials := by
      apply hB2
      tauto
    have hlt : s.trialIndex < s.trials.length := lt_of_lt_of_le hidx hB1
    refine ⟨hlt, ?_⟩
    unfold readTrial
    rw [List.getElem?_eq_getElem hlt]
    simp
  · intro hfb
    have hlen : s.results.length = s.trialIndex + 1 := hA1 hfb
    have hne : s.results ≠ [] := by
      intro hnil
      rw [hnil] at hlen
      simp at hlen
    refine ⟨hne, ?_⟩
    have hmap := congrArg List.getLast? hA3
    rw [List.getLast?_map, List.getLast?_range'] at hmap
    rw [if_neg (show ¬ s.results.length = 0 by omega)] at hmap
    cases hL : s.results.getLast? with
    | none =>
        rw [hL] at hmap
        simp at hmap
    | some res =>
        rw [hL] at hmap
        simp only [Option.map_some'] at hmap
        refine ⟨res, rfl, ?_⟩
        have hres : res.trial = 1 + s.results.length - 1 := Option.some.inj hmap
        omega

/-- Witness for C8 at the reachable Stimulus state `demoStim`. -/
theorem claimC8_witness :
    ((demoStim.phase = Phase.fixation ∨ demoStim.phase = Phase.stimulus) →
        demoStim.trialIndex < demoStim.trials.length ∧ readTrial demoStim ≠ none)
    ∧ (demoStim.phase = Phase.feedback →
        demoStim.results ≠ [] ∧
        ∃ res, demoStim.results.getLast? = some res ∧
          res.trial = demoStim.trialIndex + 1) :=
  claimC8_defensive_faults_unreachable defaultConfig demoStim (by norm_num [defaultConfig])
    demo_reach_stim

/-- Claim C9: with at least one configured trial, a Feedback exit
reaches Finished exactly when it completes the last configured trial
(`trial_index + 1 = totalTrials`, p.py lines 346-351); and in Finished
the phase changes only on the R key (back to Start), while Q or the
window-close signal clears the running flag and the phase stays
Finished (p.py lines 354-359). -/
theorem claimC9_finished_terminal (cfg : Config) (s : GameState)
    (ht : 1 ≤ cfg.totalTrials) (h : Reachable cfg s) :
    (∀ (t : ℚ) (e : Event) (rnd : Rand), s.phase = Phase.feedback →
        cfg.feedbackDuration ≤ t - s.stateTime →
        ((stepEvent cfg t e rnd s).phase = Phase.finished ↔
          s.trialIndex + 1 = cfg.totalTrials))
    ∧ (∀ (t : ℚ) (e : Event) (rnd : Rand), s.phase = Phase.finished →
        (stepEvent cfg t e rnd s).phase =
          (if e = Event.keydown Key.r then Phase.start else Phase.finished)
        ∧ ((e = Event.keydown Key.q ∨ e = Event.quit) →
            (stepEvent cfg t e rnd s).running = false)) := by
  obtain ⟨hB1, hB2, hB3⟩ := reachable_invB ht h
  constructor
  · intro t e rnd hfb hel
    have hidx : s.trialIndex < cfg.totalTrials := hB2 (Or.inr (Or.inr hfb))
    have hpq : (applyQuit e s).phase = Phase.feedback := by
      rw [applyQuit_phase]; exact hfb
    unfold stepEvent
    rw [stepPhase_eq_feedback cfg t e rnd _ hpq]
    rw [if_pos (show cfg.feedbackDuration ≤ t - (applyQuit e s).stateTime by
      rw [applyQuit_stateTime]; exact hel)]
    by_cases hn : cfg.totalTrials ≤ (applyQuit e s).trialIndex + 1
    · rw [if_pos hn]
      rw [applyQuit_trialIndex] at hn
      constructor
      · intro _
        omega
      · intro _
        rfl
    · rw [if_neg hn]
      rw [applyQuit_trialIndex] at hn
      constructor
      · intro hph
        exact absurd hph (by simp)
      · intro heq
        omega
  · intro t e rnd hfin
    have hpq : (applyQuit e s).phase = Phase.finished := by
      rw [applyQuit_phase]; exact hfin
    unfold stepEvent
    rw [stepPhase_eq_finished cfg t e rnd _ hpq]
    cases e with
    | quit =>
        refine ⟨?_, ?_⟩
        · rw [if_neg (by simp)]
          exact hpq
        · intro _
          simp [applyQuit]
    | motion =>
        refine ⟨?_, ?_⟩
        · rw [if_neg (by simp)]
          exact hpq
        · intro hq
          rcases hq with hq | hq <;> simp at hq
    | mousedown b x y =>
        refine ⟨?_, ?_⟩
        · rw [if_neg (by simp)]
          exact hpq
        · intro hq
          rcases hq with hq | hq <;> simp at hq
    | keydown k =>
        cases k with
        | r =>
            refine ⟨?_, ?_⟩
            · rw [if_pos rfl]
            · intro hq
              rcases hq with hq | hq <;> simp at hq
        | q =>
            refine ⟨?_, ?_⟩
            · rw [if_neg (by simp)]
              exact hpq
            · intro _
              rfl
        | space =>
            refine ⟨?_, ?_⟩
            · rw [if_neg (by simp)]
              exact hpq
            · intro hq
              rcases hq with hq | hq <;> simp at hq
        | left =>
            refine ⟨?_, ?_⟩
            · rw [if_neg (by simp)]
              exact hpq
            · intro hq
              rcases hq with hq | hq <;> simp at hq
        | right =>
            refine ⟨?_, ?_⟩
            · rw [if_neg (by simp)]
              exact hpq
            · intro hq
              rcases hq with hq | hq <;> simp at hq
        | other =>
            refine ⟨?_, ?_⟩
            · rw [if_neg (by simp)]
              exact hpq
            · intro hq
              rcases hq with hq | hq <;> simp at hq

/-- Witness for C9 at the reachable Feedback state `demoFb`. -/
theorem claimC9_witness :
    (∀ (t : ℚ) (e : Event) (rnd : Rand), demoFb.phase = Phase.feedback →
        defaultConfig.feedbackDuration ≤ t - demoFb.stateTime →
        ((stepEvent defaultConfig t e rnd demoFb).phase = Phase.finished ↔
          demoFb.trialIndex + 1 = defaultConfig.totalTrials))
    ∧ (∀ (t : ℚ) (e : Event) (rnd : Rand), demoFb.phase = Phase.finished →
        (stepEvent defaultConfig t e rnd demoFb).phase =
          (if e = Event.keydown Key.r then Phase.start else Phase.finished)
        ∧ ((e = Event.keydown Key.q ∨ e = Event.quit) →
            (stepEvent defaultConfig t e rnd demoFb).running = false)) :=
  claimC9_finished_terminal defaultConfig demoFb (by norm_num [defaultConfig])
    demo_reach_fb

end Stroop
